import Mathlib

/-!
Shallow embedding of the RealitioERC20 contract accessor
(`RealitioERC20Contract` together with its `IContract` base): event-log
replay, bond aggregation and settlement-chain reconstruction.

Ids, addresses, answer ids, raw bond values and history hashes are modelled
as `Nat`; converted (18-decimal) amounts as `ℚ`; JS objects used as
accumulating dictionaries as association lists in key-insertion order; the
JS `false` no-op result of `claimWinnings` as `none` and a submitted
transaction as `some` of the arguments handed to the gateway.
-/

/-- A raw `LogNewAnswer` event record (`event.returnValues`): the question
id, the answering user, the answer id, the raw bond amount in ledger-native
fixed point, and the history hash recorded with the event. -/
structure AnswerEvent where
  question_id : Nat
  user : Nat
  answer : Nat
  bond : Nat
  history_hash : Nat
deriving DecidableEq

/-- Modelled from the spec: `Numbers.nullHash()` (`utils/Numbers` is not
among the provided sources).  The NULL_HASH sentinel that represents "no
prior history", modelled as the zero hash. -/
def nullHash : Nat := 0

/-- Modelled from the spec: `Numbers.fromDecimalsNumber(value, decimals)`
(`utils/Numbers` is not among the provided sources).  Converts a
ledger-native fixed-point value to its decimal amount by dividing by
`10 ^ decimals`, modelled with exact rational arithmetic (spec section 3:
non-negative fixed-point decimals with the ledger's 18-decimal precision). -/
def fromDecimalsNumber (value : Nat) (decimals : Nat) : ℚ :=
  (value : ℚ) / ((10 ^ decimals : Nat) : ℚ)

/-- The raw question record returned by the contract's `questions` getter. -/
structure RawQuestion where
  bond : Nat
  best_answer : Nat
  finalize_ts : Nat
  history_hash : Nat
deriving DecidableEq

/-- The question object assembled by `getQuestion`. -/
structure Question where
  id : Nat
  bond : ℚ
  bestAnswer : Nat
  finalizeTs : Nat
  isFinalized : Bool
  isClaimed : Bool
deriving DecidableEq

/-- `getQuestion` (lines 27-40): reads the raw question record and the
`isFinalized` flag from the ledger, derives `isClaimed` as finalized with a
null current history hash, and converts the bond to 18-decimal units. -/
def getQuestion (questionId : Nat) (question : RawQuestion) (isFinalized : Bool) :
    Question :=
  let isClaimed := isFinalized && decide (question.history_hash = nullHash)
  { id := questionId
    bond := fromDecimalsNumber question.bond 18
    bestAnswer := question.best_answer
    finalizeTs := question.finalize_ts
    isFinalized := isFinalized
    isClaimed := isClaimed }

/-- The external `getPastEvents('LogNewAnswer', {filter})` query over the
full block range: the ledger-ordered log restricted to one question id and
optionally to one user, order preserved. -/
def queryEvents (log : List AnswerEvent) (questionId : Nat) (user : Option Nat) :
    List AnswerEvent :=
  log.filter fun e =>
    e.question_id == questionId &&
      (match user with
       | none => true
       | some u => e.user == u)

/-- One step of the JS dictionary accumulation
`if (!bonds[k]) bonds[k] = 0; bonds[k] += v`: add `v` at key `k`, keys kept
in insertion order, a missing key starting from `0`. -/
def updAdd (m : List (Nat × ℚ)) (k : Nat) (v : ℚ) : List (Nat × ℚ) :=
  match m with
  | [] => [(k, v)]
  | (k1, v1) :: rest =>
    if k1 = k then (k1, v1 + v) :: rest else (k1, v1) :: updAdd rest k v

/-- Value stored at key `k`, with the JS missing-key default `0`. -/
def lookupD (m : List (Nat × ℚ)) (k : Nat) : ℚ :=
  match m with
  | [] => 0
  | (k1, v1) :: rest => if k1 = k then v1 else lookupD rest k

/-- Whether the dictionary has the key `k` at all. -/
def hasKey (m : List (Nat × ℚ)) (k : Nat) : Bool :=
  match m with
  | [] => false
  | (k1, _) :: rest => k1 == k || hasKey rest k

/-- The `forEach` accumulation loop of `getQuestionBondsByAnswer`
(lines 77-83): fold the events into a per-answer total of converted bonds. -/
def aggregateBonds (answers : List AnswerEvent) : List (Nat × ℚ) :=
  answers.foldl (fun bonds a => updAdd bonds a.answer (fromDecimalsNumber a.bond 18)) []

/-- `getQuestionBondsByAnswer` (lines 68-86): query the question's events
(optionally scoped to one user) and accumulate per-answer bond totals. -/
def getQuestionBondsByAnswer (log : List AnswerEvent) (questionId : Nat)
    (user : Option Nat) : List (Nat × ℚ) :=
  aggregateBonds (queryEvents log questionId user)

/-- One per-question record of `getMyBonds`: the running grand total and the
per-answer dictionary. -/
structure BondEntry where
  total : ℚ
  answers : List (Nat × ℚ)
deriving DecidableEq

/-- One step of the `getMyBonds` loop body (lines 130-143): initialize the
question's record to `{ total: 0, answers: {} }` when absent, then add the
converted bond to both the grand total and the per-answer total. -/
def updEntry (m : List (Nat × BondEntry)) (q : Nat) (a : Nat) (b : ℚ) :
    List (Nat × BondEntry) :=
  match m with
  | [] => [(q, { total := b, answers := [(a, b)] })]
  | (q1, e) :: rest =>
    if q1 = q then
      (q1, { total := e.total + b, answers := updAdd e.answers a b }) :: rest
    else
      (q1, e) :: updEntry rest q a b

/-- The per-question record stored at key `q`, with the all-default record
for a missing key. -/
def lookupEntry (m : List (Nat × BondEntry)) (q : Nat) : BondEntry :=
  match m with
  | [] => { total := 0, answers := [] }
  | (q1, e) :: rest => if q1 = q then e else lookupEntry rest q

/-- `getMyBonds` (lines 114-146): with no account available return the empty
mapping without touching the event log; otherwise query the account's events
over the whole log and fold them into per-question records of grand total
and per-answer totals of converted bonds.  The account lookup
(`getMyAccount`, an external account abstraction) is modelled as an
`Option` argument. -/
def getMyBonds (account : Option Nat) (log : List AnswerEvent) :
    List (Nat × BondEntry) :=
  match account with
  | none => []
  | some acct =>
    let events := log.filter fun e => e.user == acct
    events.foldl
      (fun bonds e => updEntry bonds e.question_id e.answer (fromDecimalsNumber e.bond 18))
      []

/-- The four aligned argument sequences handed to the on-chain
`claimWinnings` method. -/
structure ClaimChain where
  historyHashes : List Nat
  addrs : List Nat
  bonds : List Nat
  answers : List Nat
deriving DecidableEq

/-- The chain-reconstruction block of `claimWinnings` (lines 168-174):
history hashes of all events but the newest (`slice(0, -1)`), reversed,
with the null hash pushed at the end; addresses, raw bonds and answer ids of
all events, each reversed. -/
def reconstructChain (events : List AnswerEvent) : ClaimChain :=
  { historyHashes := (events.map (fun e => e.history_hash)).dropLast.reverse ++ [nullHash]
    addrs := (events.map (fun e => e.user)).reverse
    bonds := (events.map (fun e => e.bond)).reverse
    answers := (events.map (fun e => e.answer)).reverse }

/-- `claimWinnings` (lines 153-187): resolve the question; when
`isClaimed || !isFinalized` return the JS `false` no-op signal (`none`)
before any event query; otherwise fetch the question's events, reconstruct
the claim chain and hand `(questionId, chain)` to the transaction gateway
(`some`). -/
def claimWinnings (questionId : Nat) (question : RawQuestion) (isFinalized : Bool)
    (log : List AnswerEvent) : Option (Nat × ClaimChain) :=
  let q := getQuestion questionId question isFinalized
  if q.isClaimed || !q.isFinalized then none
  else some (questionId, reconstructChain (queryEvents log questionId none))

/-- Total of converted bonds carried by the events whose answer id is `k`
(the value `getQuestionBondsByAnswer` is meant to accumulate per answer). -/
def answerTotal (evs : List AnswerEvent) (k : Nat) : ℚ :=
  ((evs.filter fun a => a.answer == k).map fun a => fromDecimalsNumber a.bond 18).sum

/-- Total of converted bonds carried by the events for question `q` and
answer `a` (the per-answer value `getMyBonds` accumulates). -/
def qaTotal (evs : List AnswerEvent) (q : Nat) (a : Nat) : ℚ :=
  ((evs.filter fun e => e.question_id == q && e.answer == a).map
    fun e => fromDecimalsNumber e.bond 18).sum

/-- Total of converted bonds carried by the events for question `q`
(the grand total `getMyBonds` accumulates). -/
def qTotal (evs : List AnswerEvent) (q : Nat) : ℚ :=
  ((evs.filter fun e => e.question_id == q).map
    fun e => fromDecimalsNumber e.bond 18).sum

/-- The three-event ledger of the end-to-end example, read literally: the
events carry raw bond field values `10`, `5`, `3` for question `1` with
users `A = 10`, `B = 11` and history hashes `h1 = 101`, `h2 = 102`,
`h3 = 103`. -/
def exampleLogRaw : List AnswerEvent :=
  [⟨1, 10, 1, 10, 101⟩, ⟨1, 11, 2, 5, 102⟩, ⟨1, 10, 1, 3, 103⟩]

/-- The three-event ledger of the end-to-end example with the bond amounts
`10`, `5`, `3` understood in 18-decimal display units, so the raw ledger
fields are scaled by `10 ^ 18`. -/
def exampleLog : List AnswerEvent :=
  [⟨1, 10, 1, 10 * 10 ^ 18, 101⟩, ⟨1, 11, 2, 5 * 10 ^ 18, 102⟩, ⟨1, 10, 1, 3 * 10 ^ 18, 103⟩]

/-! Helper lemmas about the dictionary-accumulation primitives. -/

theorem lookupD_updAdd (m : List (Nat × ℚ)) (a k : Nat) (b : ℚ) :
    lookupD (updAdd m a b) k = if a = k then lookupD m k + b else lookupD m k := by
  induction m with
  | nil =>
    by_cases h : a = k <;> simp [updAdd, lookupD, h]
  | cons hd tl ih =>
    obtain ⟨k1, v1⟩ := hd
    by_cases h1 : k1 = a
    · subst h1
      by_cases h2 : k1 = k <;> simp [updAdd, lookupD, h2]
    · by_cases h2 : k1 = k
      · subst h2
        have h3 : ¬ a = k1 := fun h => h1 h.symm
        simp [updAdd, lookupD, h1, h3]
      · simp [updAdd, lookupD, h1, h2, ih]

theorem hasKey_updAdd (m : List (Nat × ℚ)) (a k : Nat) (b : ℚ) :
    hasKey (updAdd m a b) k = ((a == k) || hasKey m k) := by
  induction m with
  | nil => simp [updAdd, hasKey]
  | cons hd tl ih =>
    obtain ⟨k1, v1⟩ := hd
    by_cases h1 : k1 = a
    · subst h1
      simp [updAdd, hasKey]
    · simp [updAdd, hasKey, h1, ih]
      by_cases h2 : k1 == k <;> by_cases h3 : a == k <;> simp [h2, h3]

theorem lookupD_foldl_updAdd (evs : List AnswerEvent) (m : List (Nat × ℚ)) (k : Nat) :
    lookupD (evs.foldl (fun bonds a => updAdd bonds a.answer (fromDecimalsNumber a.bond 18)) m) k
      = lookupD m k + answerTotal evs k := by
  induction evs generalizing m with
  | nil => simp [answerTotal]
  | cons e tl ih =>
    simp only [List.foldl_cons]
    rw [ih, lookupD_updAdd]
    by_cases h : e.answer = k
    · simp [answerTotal, List.filter_cons, h]
      ring
    · simp [answerTotal, List.filter_cons, h]

theorem hasKey_foldl_updAdd (evs : List AnswerEvent) (m : List (Nat × ℚ)) (k : Nat) :
    hasKey (evs.foldl (fun bonds a => updAdd bonds a.answer (fromDecimalsNumber a.bond 18)) m) k
      = (hasKey m k || evs.any fun a => a.answer == k) := by
  induction evs generalizing m with
  | nil => simp
  | cons e tl ih =>
    simp only [List.foldl_cons, List.any_cons]
    rw [ih, hasKey_updAdd]
    by_cases h2 : e.answer == k <;> by_cases h3 : hasKey m k <;> simp [h2, h3]

theorem lookupD_aggregateBonds (evs : List AnswerEvent) (k : Nat) :
    lookupD (aggregateBonds evs) k = answerTotal evs k := by
  have h := lookupD_foldl_updAdd evs [] k
  simpa [aggregateBonds, lookupD] using h

theorem hasKey_aggregateBonds (evs : List AnswerEvent) (k : Nat) :
    hasKey (aggregateBonds evs) k = evs.any fun a => a.answer == k := by
  have h := hasKey_foldl_updAdd evs [] k
  simpa [aggregateBonds, hasKey] using h

theorem lookupEntry_updEntry (m : List (Nat × BondEntry)) (q a : Nat) (b : ℚ) (q1 : Nat) :
    lookupEntry (updEntry m q a b) q1 =
      if q = q1 then
        { total := (lookupEntry m q1).total + b
          answers := updAdd (lookupEntry m q1).answers a b }
      else lookupEntry m q1 := by
  induction m with
  | nil =>
    by_cases h : q = q1 <;> simp [updEntry, lookupEntry, updAdd, h]
  | cons hd tl ih =>
    obtain ⟨q2, e⟩ := hd
    by_cases h1 : q2 = q
    · subst h1
      by_cases h2 : q2 = q1 <;> simp [updEntry, lookupEntry, h2]
    · by_cases h2 : q2 = q1
      · subst h2
        have h3 : ¬ q = q2 := fun h => h1 h.symm
        simp [updEntry, lookupEntry, h1, h3]
      · simp [updEntry, lookupEntry, h1, h2, ih]

theorem myBonds_qa_foldl (evs : List AnswerEvent) (m : List (Nat × BondEntry)) (q a : Nat) :
    lookupD (lookupEntry
        (evs.foldl
          (fun bonds e => updEntry bonds e.question_id e.answer (fromDecimalsNumber e.bond 18)) m)
        q).answers a
      = lookupD (lookupEntry m q).answers a + qaTotal evs q a := by
  induction evs generalizing m with
  | nil => simp [qaTotal]
  | cons e tl ih =>
    simp only [List.foldl_cons]
    rw [ih, lookupEntry_updEntry]
    by_cases h1 : e.question_id = q
    · by_cases h2 : e.answer = a
      · simp [h1, h2, lookupD_updAdd, qaTotal, List.filter_cons]
        ring
      · simp [h1, h2, lookupD_updAdd, qaTotal, List.filter_cons]
    · by_cases h2 : e.answer = a <;>
        simp [h1, h2, qaTotal, List.filter_cons]

theorem myBonds_total_foldl (evs : List AnswerEvent) (m : List (Nat × BondEntry)) (q : Nat) :
    (lookupEntry
        (evs.foldl
          (fun bonds e => updEntry bonds e.question_id e.answer (fromDecimalsNumber e.bond 18)) m)
        q).total
      = (lookupEntry m q).total + qTotal evs q := by
  induction evs generalizing m with
  | nil => simp [qTotal]
  | cons e tl ih =>
    simp only [List.foldl_cons]
    rw [ih, lookupEntry_updEntry]
    by_cases h1 : e.question_id = q
    · simp [h1, qTotal, List.filter_cons]
      ring
    · simp [h1, qTotal, List.filter_cons]

theorem myBonds_qa (acct : Nat) (log : List AnswerEvent) (q a : Nat) :
    lookupD (lookupEntry (getMyBonds (some acct) log) q).answers a
      = qaTotal (log.filter fun e => e.user == acct) q a := by
  have h := myBonds_qa_foldl (log.filter fun e => e.user == acct) [] q a
  simpa [getMyBonds, lookupEntry, lookupD] using h

theorem myBonds_total (acct : Nat) (log : List AnswerEvent) (q : Nat) :
    (lookupEntry (getMyBonds (some acct) log) q).total
      = qTotal (log.filter fun e => e.user == acct) q := by
  have h := myBonds_total_foldl (log.filter fun e => e.user == acct) [] q
  simpa [getMyBonds, lookupEntry] using h

theorem map_snd_sum_updAdd (l : List (Nat × ℚ)) (a : Nat) (b : ℚ) :
    ((updAdd l a b).map Prod.snd).sum = (l.map Prod.snd).sum + b := by
  induction l with
  | nil => simp [updAdd]
  | cons hd tl ih =>
    obtain ⟨k1, v1⟩ := hd
    by_cases h : k1 = a
    · simp [updAdd, h]
      ring
    · simp [updAdd, h, ih]
      ring

theorem updEntry_WF (m : List (Nat × BondEntry)) (q a : Nat) (b : ℚ)
    (hm : ∀ p ∈ m, p.2.total = (p.2.answers.map Prod.snd).sum) :
    ∀ p ∈ updEntry m q a b, p.2.total = (p.2.answers.map Prod.snd).sum := by
  induction m with
  | nil =>
    intro p hp
    simp [updEntry] at hp
    subst hp
    simp [updAdd]
  | cons hd tl ih =>
    obtain ⟨q1, e⟩ := hd
    intro p hp
    by_cases h : q1 = q
    · simp [updEntry, h] at hp
      rcases hp with hp | hp
      · subst hp
        have he := hm (q1, e) (by simp)
        simp at he
        simp [map_snd_sum_updAdd, he]
      · exact hm p (List.mem_cons_of_mem _ hp)
    · simp [updEntry, h] at hp
      rcases hp with hp | hp
      · subst hp
        exact hm (q1, e) (by simp)
      · exact ih (fun p1 hp1 => hm p1 (List.mem_cons_of_mem _ hp1)) p hp

theorem myBonds_WF_foldl (evs : List AnswerEvent) (m : List (Nat × BondEntry))
    (hm : ∀ p ∈ m, p.2.total = (p.2.answers.map Prod.snd).sum) :
    ∀ p ∈ evs.foldl
        (fun bonds e => updEntry bonds e.question_id e.answer (fromDecimalsNumber e.bond 18)) m,
      p.2.total = (p.2.answers.map Prod.snd).sum := by
  induction evs generalizing m with
  | nil => exact hm
  | cons e tl ih =>
    simp only [List.foldl_cons]
    exact ih _ (updEntry_WF m e.question_id e.answer (fromDecimalsNumber e.bond 18) hm)

theorem perm_any_eq {α : Type} {l1 l2 : List α} (h : l1.Perm l2) (p : α → Bool) :
    l1.any p = l2.any p := by
  rw [Bool.eq_iff_iff]
  simp only [List.any_eq_true]
  constructor
  · rintro ⟨x, hx, hpx⟩
    exact ⟨x, h.mem_iff.mp hx, hpx⟩
  · rintro ⟨x, hx, hpx⟩
    exact ⟨x, h.mem_iff.mpr hx, hpx⟩

theorem answerTotal_perm {l1 l2 : List AnswerEvent} (h : l1.Perm l2) (k : Nat) :
    answerTotal l1 k = answerTotal l2 k :=
  List.Perm.sum_eq (List.Perm.map _ (List.Perm.filter _ h))

theorem qaTotal_perm {l1 l2 : List AnswerEvent} (h : l1.Perm l2) (q a : Nat) :
    qaTotal l1 q a = qaTotal l2 q a :=
  List.Perm.sum_eq (List.Perm.map _ (List.Perm.filter _ h))

theorem qTotal_perm {l1 l2 : List AnswerEvent} (h : l1.Perm l2) (q : Nat) :
    qTotal l1 q = qTotal l2 q :=
  List.Perm.sum_eq (List.Perm.map _ (List.Perm.filter _ h))

/-! The claims. -/

/-- C1: for every non-empty event sequence in ascending ledger order, the
history-hash sequence built by `claimWinnings`'s chain reconstruction equals
the hashes of all events but the newest, reversed, with one terminal
NULL_HASH sentinel appended, and its length is the number of events. -/
theorem claim_C1 (events : List AnswerEvent) (h : events ≠ []) :
    (reconstructChain events).historyHashes
        = (events.dropLast.map fun e => e.history_hash).reverse ++ [nullHash]
    ∧ (reconstructChain events).historyHashes.length = events.length := by
  constructor
  · simp [reconstructChain, List.map_dropLast]
  · have hlen : events.length ≠ 0 := fun h0 => h (List.length_eq_zero.mp h0)
    simp [reconstructChain]
    omega

/-- Witness for C1 at the one-event sequence `[⟨1, 2, 3, 4, 5⟩]`. -/
theorem claim_C1_witness :
    (([⟨1, 2, 3, 4, 5⟩] : List AnswerEvent) ≠ [])
    ∧ ((reconstructChain [⟨1, 2, 3, 4, 5⟩]).historyHashes
        = (([⟨1, 2, 3, 4, 5⟩] : List AnswerEvent).dropLast.map fun e => e.history_hash).reverse
            ++ [nullHash]
      ∧ (reconstructChain [⟨1, 2, 3, 4, 5⟩]).historyHashes.length
          = ([⟨1, 2, 3, 4, 5⟩] : List AnswerEvent).length) :=
  ⟨by decide, claim_C1 [⟨1, 2, 3, 4, 5⟩] (by decide)⟩

/-- C2: for every non-empty event sequence, the address, bond and answer
sequences of the reconstructed ClaimChain are the full event sequence
reversed (each of length n), so their first element comes from the most
recent event and their last element from the oldest event. -/
theorem claim_C2 (events : List AnswerEvent) (h : events ≠ []) :
    (reconstructChain events).addrs = (events.map fun e => e.user).reverse
    ∧ (reconstructChain events).bonds = (events.map fun e => e.bond).reverse
    ∧ (reconstructChain events).answers = (events.map fun e => e.answer).reverse
    ∧ (reconstructChain events).addrs.length = events.length
    ∧ (reconstructChain events).bonds.length = events.length
    ∧ (reconstructChain events).answers.length = events.length
    ∧ (reconstructChain events).addrs.head? = some (events.getLast h).user
    ∧ (reconstructChain events).bonds.head? = some (events.getLast h).bond
    ∧ (reconstructChain events).answers.head? = some (events.getLast h).answer
    ∧ (reconstructChain events).addrs.getLast? = some (events.head h).user
    ∧ (reconstructChain events).bonds.getLast? = some (events.head h).bond
    ∧ (reconstructChain events).answers.getLast? = some (events.head h).answer := by
  refine ⟨rfl, rfl, rfl, by simp [reconstructChain], by simp [reconstructChain],
    by simp [reconstructChain], ?_, ?_, ?_, ?_, ?_, ?_⟩
  all_goals
    simp [reconstructChain, List.head?_reverse, List.getLast?_reverse, List.getLast?_map,
      List.head?_map, List.getLast?_eq_getLast _ h, List.head?_eq_head h]

/-- Witness for C2 at the two-event sequence
`[⟨1, 2, 3, 4, 5⟩, ⟨1, 6, 7, 8, 9⟩]`. -/
theorem claim_C2_witness :
    (([⟨1, 2, 3, 4, 5⟩, ⟨1, 6, 7, 8, 9⟩] : List AnswerEvent) ≠ [])
    ∧ ((reconstructChain [⟨1, 2, 3, 4, 5⟩, ⟨1, 6, 7, 8, 9⟩]).addrs
        = (([⟨1, 2, 3, 4, 5⟩, ⟨1, 6, 7, 8, 9⟩] : List AnswerEvent).map fun e => e.user).reverse
      ∧ (reconstructChain [⟨1, 2, 3, 4, 5⟩, ⟨1, 6, 7, 8, 9⟩]).bonds
        = (([⟨1, 2, 3, 4, 5⟩, ⟨1, 6, 7, 8, 9⟩] : List AnswerEvent).map fun e => e.bond).reverse
      ∧ (reconstructChain [⟨1, 2, 3, 4, 5⟩, ⟨1, 6, 7, 8, 9⟩]).answers
        = (([⟨1, 2, 3, 4, 5⟩, ⟨1, 6, 7, 8, 9⟩] : List AnswerEvent).map fun e => e.answer).reverse
      ∧ (reconstructChain [⟨1, 2, 3, 4, 5⟩, ⟨1, 6, 7, 8, 9⟩]).addrs.length
          = ([⟨1, 2, 3, 4, 5⟩, ⟨1, 6, 7, 8, 9⟩] : List AnswerEvent).length
      ∧ (reconstructChain [⟨1, 2, 3, 4, 5⟩, ⟨1, 6, 7, 8, 9⟩]).bonds.length
          = ([⟨1, 2, 3, 4, 5⟩, ⟨1, 6, 7, 8, 9⟩] : List AnswerEvent).length
      ∧ (reconstructChain [⟨1, 2, 3, 4, 5⟩, ⟨1, 6, 7, 8, 9⟩]).answers.length
          = ([⟨1, 2, 3, 4, 5⟩, ⟨1, 6, 7, 8, 9⟩] : List AnswerEvent).length
      ∧ (reconstructChain [⟨1, 2, 3, 4, 5⟩, ⟨1, 6, 7, 8, 9⟩]).addrs.head?
          = some (([⟨1, 2, 3, 4, 5⟩, ⟨1, 6, 7, 8, 9⟩] : List AnswerEvent).getLast (by decide)).user
      ∧ (reconstructChain [⟨1, 2, 3, 4, 5⟩, ⟨1, 6, 7, 8, 9⟩]).bonds.head?
          = some (([⟨1, 2, 3, 4, 5⟩, ⟨1, 6, 7, 8, 9⟩] : List AnswerEvent).getLast (by decide)).bond
      ∧ (reconstructChain [⟨1, 2, 3, 4, 5⟩, ⟨1, 6, 7, 8, 9⟩]).answers.head?
          = some (([⟨1, 2, 3, 4, 5⟩, ⟨1, 6, 7, 8, 9⟩] : List AnswerEvent).getLast (by decide)).answer
      ∧ (reconstructChain [⟨1, 2, 3, 4, 5⟩, ⟨1, 6, 7, 8, 9⟩]).addrs.getLast?
          = some (([⟨1, 2, 3, 4, 5⟩, ⟨1, 6, 7, 8, 9⟩] : List AnswerEvent).head (by decide)).user
      ∧ (reconstructChain [⟨1, 2, 3, 4, 5⟩, ⟨1, 6, 7, 8, 9⟩]).bonds.getLast?
          = some (([⟨1, 2, 3, 4, 5⟩, ⟨1, 6, 7, 8, 9⟩] : List AnswerEvent).head (by decide)).bond
      ∧ (reconstructChain [⟨1, 2, 3, 4, 5⟩, ⟨1, 6, 7, 8, 9⟩]).answers.getLast?
          = some (([⟨1, 2, 3, 4, 5⟩, ⟨1, 6, 7, 8, 9⟩] : List AnswerEvent).head (by decide)).answer) :=
  ⟨by decide, claim_C2 [⟨1, 2, 3, 4, 5⟩, ⟨1, 6, 7, 8, 9⟩] (by decide)⟩

/-- Counterexample to C3: at the empty event sequence the hash sequence
built by the chain reconstruction is `[nullHash]`, of length 1, so the
reconstruction does not return four sequences of length n = 0 and does not
yield four empty sequences. -/
theorem claim_C3_cex :
    (reconstructChain ([] : List AnswerEvent)).historyHashes = [nullHash]
    ∧ (reconstructChain ([] : List AnswerEvent)).historyHashes.length ≠ 0
    ∧ (reconstructChain ([] : List AnswerEvent)).historyHashes ≠ [] :=
  ⟨rfl, by decide, by decide⟩

/-- C3 as amended: for every event sequence of length n (including n = 0)
the address, bond and answer sequences have length exactly n, the hash
sequence has length `max n 1` (n for n ≥ 1, but 1 — the bare sentinel — for
n = 0), and the hash sequence's last element is always the null sentinel. -/
theorem claim_C3 (events : List AnswerEvent) :
    (reconstructChain events).addrs.length = events.length
    ∧ (reconstructChain events).bonds.length = events.length
    ∧ (reconstructChain events).answers.length = events.length
    ∧ (reconstructChain events).historyHashes.length = max events.length 1
    ∧ (reconstructChain events).historyHashes.getLast? = some nullHash := by
  refine ⟨by simp [reconstructChain], by simp [reconstructChain], by simp [reconstructChain],
    ?_, ?_⟩
  · simp [reconstructChain]
    omega
  · simp [reconstructChain, List.getLast?_concat]

/-- Counterexample to C4: the end-to-end example cannot hold as stated.
Reading the example's bond values `10, 5, 3` literally as the events' raw
bond fields, the aggregated global total for answer 1 is `13 / 10 ^ 18`,
not `13`; reading them as 18-decimal display amounts (raw fields scaled by
`10 ^ 18`), the reconstructed chain's bond sequence is the raw
`[3, 5, 10] * 10 ^ 18`, not `[3, 5, 10]`.  Under neither reading do the
claimed aggregation totals and the claimed chain bonds both hold. -/
theorem claim_C4_cex :
    lookupD (getQuestionBondsByAnswer exampleLogRaw 1 none) 1 ≠ 13
    ∧ (reconstructChain (queryEvents exampleLog 1 none)).bonds ≠ [3, 5, 10] := by
  constructor
  · norm_num [exampleLogRaw, getQuestionBondsByAnswer, aggregateBonds, queryEvents, updAdd,
      lookupD, fromDecimalsNumber]
  · decide

/-- C4 as amended: on the three-event example for question 1 (users
`A = 10`, `B = 11`, answers `1, 2, 1`, bond amounts `10, 5, 3` in
18-decimal units so the raw ledger fields are scaled by `10 ^ 18`, history
hashes `101, 102, 103`), aggregation yields global totals `{1: 13, 2: 5}`
and per-user totals `{1: 13}` for user A, and chain reconstruction yields
hashes `[102, 101, NULL_HASH]`, addresses `[A, B, A]` (3rd, 2nd, 1st),
answers `[1, 2, 1]`, and the raw (unconverted) bond values
`[3, 5, 10] * 10 ^ 18` reversed newest-to-oldest. -/
theorem claim_C4 :
    getQuestionBondsByAnswer exampleLog 1 none = [(1, 13), (2, 5)]
    ∧ getQuestionBondsByAnswer exampleLog 1 (some 10) = [(1, 13)]
    ∧ reconstructChain (queryEvents exampleLog 1 none)
        = { historyHashes := [102, 101, nullHash]
            addrs := [10, 11, 10]
            bonds := [3 * 10 ^ 18, 5 * 10 ^ 18, 10 * 10 ^ 18]
            answers := [1, 2, 1] } := by
  refine ⟨?_, ?_, by decide⟩
  · norm_num [exampleLog, getQuestionBondsByAnswer, aggregateBonds, queryEvents, updAdd,
      fromDecimalsNumber]
  · norm_num [exampleLog, getQuestionBondsByAnswer, aggregateBonds, queryEvents, updAdd,
      fromDecimalsNumber]

/-- C5: bond aggregation is order-independent — for any permutation of the
event log, `getQuestionBondsByAnswer` (any question/user scope) assigns the
same total to every answer id and holds exactly the same answer keys, and
the `getMyBonds` accumulation assigns the same per-answer totals and the
same per-question grand total. -/
theorem claim_C5 (log log2 : List AnswerEvent) (hlog : log.Perm log2)
    (questionId : Nat) (user : Option Nat) (acct q : Nat) :
    (∀ k, lookupD (getQuestionBondsByAnswer log questionId user) k
        = lookupD (getQuestionBondsByAnswer log2 questionId user) k)
    ∧ (∀ k, hasKey (getQuestionBondsByAnswer log questionId user) k
        = hasKey (getQuestionBondsByAnswer log2 questionId user) k)
    ∧ (∀ a, lookupD (lookupEntry (getMyBonds (some acct) log) q).answers a
        = lookupD (lookupEntry (getMyBonds (some acct) log2) q).answers a)
    ∧ (lookupEntry (getMyBonds (some acct) log) q).total
        = (lookupEntry (getMyBonds (some acct) log2) q).total := by
  have hq : (queryEvents log questionId user).Perm (queryEvents log2 questionId user) :=
    List.Perm.filter _ hlog
  have hu : (log.filter fun e => e.user == acct).Perm (log2.filter fun e => e.user == acct) :=
    List.Perm.filter _ hlog
  refine ⟨?_, ?_, ?_, ?_⟩
  · intro k
    rw [getQuestionBondsByAnswer, getQuestionBondsByAnswer, lookupD_aggregateBonds,
      lookupD_aggregateBonds]
    exact answerTotal_perm hq k
  · intro k
    rw [getQuestionBondsByAnswer, getQuestionBondsByAnswer, hasKey_aggregateBonds,
      hasKey_aggregateBonds]
    exact perm_any_eq hq _
  · intro a
    rw [myBonds_qa, myBonds_qa]
    exact qaTotal_perm hu q a
  · rw [myBonds_total, myBonds_total]
    exact qTotal_perm hu q

/-- Witness for C5 at a two-event log and its transposition. -/
theorem claim_C5_witness :
    (([⟨1, 10, 1, 7, 101⟩, ⟨1, 10, 2, 9, 102⟩] : List AnswerEvent).Perm
        [⟨1, 10, 2, 9, 102⟩, ⟨1, 10, 1, 7, 101⟩])
    ∧ ((∀ k, lookupD (getQuestionBondsByAnswer [⟨1, 10, 1, 7, 101⟩, ⟨1, 10, 2, 9, 102⟩] 1 none) k
          = lookupD (getQuestionBondsByAnswer [⟨1, 10, 2, 9, 102⟩, ⟨1, 10, 1, 7, 101⟩] 1 none) k)
      ∧ (∀ k, hasKey (getQuestionBondsByAnswer [⟨1, 10, 1, 7, 101⟩, ⟨1, 10, 2, 9, 102⟩] 1 none) k
          = hasKey (getQuestionBondsByAnswer [⟨1, 10, 2, 9, 102⟩, ⟨1, 10, 1, 7, 101⟩] 1 none) k)
      ∧ (∀ a, lookupD (lookupEntry
            (getMyBonds (some 10) [⟨1, 10, 1, 7, 101⟩, ⟨1, 10, 2, 9, 102⟩]) 1).answers a
          = lookupD (lookupEntry
            (getMyBonds (some 10) [⟨1, 10, 2, 9, 102⟩, ⟨1, 10, 1, 7, 101⟩]) 1).answers a)
      ∧ (lookupEntry (getMyBonds (some 10) [⟨1, 10, 1, 7, 101⟩, ⟨1, 10, 2, 9, 102⟩]) 1).total
          = (lookupEntry (getMyBonds (some 10) [⟨1, 10, 2, 9, 102⟩, ⟨1, 10, 1, 7, 101⟩]) 1).total) :=
  ⟨by decide, claim_C5 [⟨1, 10, 1, 7, 101⟩, ⟨1, 10, 2, 9, 102⟩]
    [⟨1, 10, 2, 9, 102⟩, ⟨1, 10, 1, 7, 101⟩] (by decide) 1 none 10 1⟩

/-- C6: in every record produced by `getMyBonds`, the grand total recorded
for a question equals the sum of that question's per-answer accumulated
amounts. -/
theorem claim_C6 (account : Option Nat) (log : List AnswerEvent) (q : Nat) (e : BondEntry)
    (h : (q, e) ∈ getMyBonds account log) :
    e.total = (e.answers.map Prod.snd).sum := by
  cases account with
  | none => simp [getMyBonds] at h
  | some acct =>
    have hwf := myBonds_WF_foldl (log.filter fun e1 => e1.user == acct) []
      (by intro p hp; simp at hp)
    exact hwf (q, e) h

/-- Witness for C6 at a one-event log whose single bond of `10 ^ 18` raw
units converts to `1`. -/
theorem claim_C6_witness :
    (((1 : Nat), ({ total := 1, answers := [(2, 1)] } : BondEntry))
        ∈ getMyBonds (some 10) [⟨1, 10, 2, 10 ^ 18, 5⟩])
    ∧ ({ total := 1, answers := [(2, 1)] } : BondEntry).total
        = (({ total := 1, answers := [(2, 1)] } : BondEntry).answers.map Prod.snd).sum := by
  have hmem : ((1 : Nat), ({ total := 1, answers := [(2, 1)] } : BondEntry))
      ∈ getMyBonds (some 10) [⟨1, 10, 2, 10 ^ 18, 5⟩] := by
    norm_num [getMyBonds, updEntry, updAdd, fromDecimalsNumber]
  exact ⟨hmem, claim_C6 (some 10) [⟨1, 10, 2, 10 ^ 18, 5⟩] 1 _ hmem⟩

/-- C7: whenever the resolved question has `isClaimed` true or `isFinalized`
false, `claimWinnings` returns the non-error no-op signal (`none`, the JS
`false`) for every event log — so independently of, and without consulting,
the event log, the chain reconstruction or the transaction gateway. -/
theorem claim_C7 (questionId : Nat) (question : RawQuestion) (isFinalized : Bool)
    (log : List AnswerEvent)
    (h : (getQuestion questionId question isFinalized).isClaimed = true ∨ isFinalized = false) :
    claimWinnings questionId question isFinalized log = none := by
  rcases h with h | h
  · simp [claimWinnings, h]
  · subst h
    simp [claimWinnings, getQuestion]

/-- Witness for C7 at an unfinalized question. -/
theorem claim_C7_witness :
    ((getQuestion 1 ⟨0, 0, 0, 0⟩ false).isClaimed = true ∨ false = false)
    ∧ claimWinnings 1 ⟨0, 0, 0, 0⟩ false [] = none :=
  ⟨Or.inr rfl, claim_C7 1 ⟨0, 0, 0, 0⟩ false [] (Or.inr rfl)⟩

/-- C8: the `isClaimed` flag returned by `getQuestion` is true exactly when
the question is finalized and its current history hash equals NULL_HASH;
it is derived from those two fields of the read state alone. -/
theorem claim_C8 (questionId : Nat) (question : RawQuestion) (isFinalized : Bool) :
    (getQuestion questionId question isFinalized).isClaimed = true
      ↔ (isFinalized = true ∧ question.history_hash = nullHash) := by
  simp [getQuestion]

/-- C9: with no user account available, `getMyBonds` returns the empty
mapping for every event log — without consulting the log and without an
error. -/
theorem claim_C9 (log : List AnswerEvent) : getMyBonds none log = [] := rfl

/-- C10: the bond sequence of the ClaimChain submitted by `claimWinnings`
consists of the events' raw ledger-native bond fields (reversed), with no
18-decimal conversion, whereas `getQuestion`, `getQuestionBondsByAnswer`
and `getMyBonds` all convert bond values through `fromDecimalsNumber _ 18`
before use. -/
theorem claim_C10 (events : List AnswerEvent) (questionId : Nat) (question : RawQuestion)
    (isFinalized : Bool) (log : List AnswerEvent) (k acct q a : Nat) :
    (reconstructChain events).bonds = (events.map fun e => e.bond).reverse
    ∧ (getQuestion questionId question isFinalized).bond = fromDecimalsNumber question.bond 18
    ∧ lookupD (getQuestionBondsByAnswer log questionId none) k
        = answerTotal (queryEvents log questionId none) k
    ∧ lookupD (lookupEntry (getMyBonds (some acct) log) q).answers a
        = qaTotal (log.filter fun e => e.user == acct) q a := by
  refine ⟨rfl, rfl, ?_, ?_⟩
  · exact lookupD_aggregateBonds _ _
  · exact myBonds_qa acct log q a
